import Mathlib

/-!
Verification of the unreachable-memory detector (`memunreachable`) of this
repository against its natural-language specification.

The definitions below are a shallow embedding of the C++ source.  Pure
control flow is translated into Lean functions; out-parameters become
returned tuples; fallible operations return `Option`; the machinery of the
operating system (pipe transport, thread capture, `fork`) is represented by
explicit environment records holding the success bits and data that the
source reads from those collaborators.  Components whose sources are not
part of the repository snapshot (HeapWalker internals, LeakPipe framing,
the `Leak::contents_length` constant) are modelled from the specification
text and marked as such in their doc comments.
-/

namespace Memunreachable

/-- A mapping record parsed from the process memory map:
`Region` begin/end plus protection bits and a name
(embeds `struct Mapping` used by `MemUnreachable`). -/
structure Mapping where
  begin_ : Nat
  end_ : Nat
  read : Bool
  write : Bool
  execute : Bool
  name : String
deriving DecidableEq, Repr

/-- Embeds `has_prefix(s, prefix)` from the source:
`s.compare(0, strlen(prefix), prefix) == 0`, i.e. the second string is a
prefix of the first (modelled on the underlying character lists so that the
kernel can evaluate it). -/
def has_prefix (s : String) (p : String) : Bool :=
  p.data.isPrefixOf s.data

/-- The four output lists of `MemUnreachable::ClassifyMappings` plus the
`current_lib` loop variable. -/
structure ClassifyState where
  heap_mappings : List Mapping
  anon_mappings : List Mapping
  globals_mappings : List Mapping
  stack_mappings : List Mapping
  current_lib : String
deriving DecidableEq, Repr

/-- One iteration of the loop body of `MemUnreachable::ClassifyMappings`,
with the if/else-if chain in source order. -/
def classifyStep (s : ClassifyState) (m : Mapping) : ClassifyState :=
  if m.execute then { s with current_lib := m.name }
  else if m.read = false then s
  else if m.name = "[anon:.bss]" then
    { s with globals_mappings := s.globals_mappings ++ [m] }
  else if m.name = s.current_lib then
    { s with globals_mappings := s.globals_mappings ++ [m] }
  else if m.name = "[anon:libc_malloc]" then
    { s with heap_mappings := s.heap_mappings ++ [m] }
  else if has_prefix m.name "/dev/ashmem/dalvik" then
    { s with globals_mappings := s.globals_mappings ++ [m] }
  else if has_prefix m.name "[stack" then
    { s with stack_mappings := s.stack_mappings ++ [m] }
  else if m.name.length = 0 then
    { s with globals_mappings := s.globals_mappings ++ [m] }
  else if has_prefix m.name "[anon:" ∧ m.name ≠ "[anon:leak_detector_malloc]" then
    { s with globals_mappings := s.globals_mappings ++ [m] }
  else s

/-- The loop of `MemUnreachable::ClassifyMappings`: all four lists start
cleared and `current_lib` starts empty. -/
def classifyOf (mappings : List Mapping) : ClassifyState :=
  mappings.foldl classifyStep ⟨[], [], [], [], ""⟩

/-- Embeds `MemUnreachable::ClassifyMappings`.  The source function returns
`bool` and `true` on every path, so the embedding always returns `some`. -/
def MemUnreachable.ClassifyMappings (mappings : List Mapping) : Option ClassifyState :=
  some (classifyOf mappings)

/-- Which list a single mapping is sent to (spec-side description used to
state the classification claim). -/
inductive MapClass where
  | heapM
  | globalsM
  | stacksM
  | noneM
deriving DecidableEq, Repr

/-- The per-mapping classification rule table, first match wins, exactly as
the claim lists it, as a function of the current-library name. -/
def specClassify (lib : String) (m : Mapping) : MapClass :=
  if m.execute then .noneM
  else if m.read = false then .noneM
  else if m.name = "[anon:.bss]" then .globalsM
  else if m.name = lib then .globalsM
  else if m.name = "[anon:libc_malloc]" then .heapM
  else if has_prefix m.name "/dev/ashmem/dalvik" then .globalsM
  else if has_prefix m.name "[stack" then .stacksM
  else if m.name.length = 0 then .globalsM
  else if has_prefix m.name "[anon:" ∧ m.name ≠ "[anon:leak_detector_malloc]" then .globalsM
  else .noneM

/-- The current-library name after seeing one mapping: executable mappings
overwrite it with their own name, all others leave it unchanged. -/
def nextLib (lib : String) (m : Mapping) : String :=
  if m.execute then m.name else lib

/-- Pairs every mapping with the current-library name in force when the
classifier reaches it. -/
def withLibs (lib : String) : List Mapping → List (String × Mapping)
  | [] => []
  | m :: rest => (lib, m) :: withLibs (nextLib lib m) rest

/-- The mappings (in input order) that the rule table sends to class `c`,
starting from current-library name `lib`. -/
def selectClass (lib : String) (mappings : List Mapping) (c : MapClass) : List Mapping :=
  (withLibs lib mappings).filterMap
    (fun p => if specClassify p.1 p.2 = c then some p.2 else none)

/-- Updates the classifier state by appending mapping `m` to the list that
class `c` designates. -/
def applyClass (s : ClassifyState) (c : MapClass) (m : Mapping) : ClassifyState :=
  match c with
  | .heapM => { s with heap_mappings := s.heap_mappings ++ [m] }
  | .globalsM => { s with globals_mappings := s.globals_mappings ++ [m] }
  | .stacksM => { s with stack_mappings := s.stack_mappings ++ [m] }
  | .noneM => s

theorem classifyStep_eq (s : ClassifyState) (m : Mapping) :
    classifyStep s m =
      applyClass { s with current_lib := nextLib s.current_lib m }
        (specClassify s.current_lib m) m := by
  unfold classifyStep specClassify nextLib
  split_ifs <;> rfl

theorem selectClass_cons (lib : String) (m : Mapping) (rest : List Mapping) (c : MapClass) :
    selectClass lib (m :: rest) c =
      (if specClassify lib m = c then [m] else []) ++ selectClass (nextLib lib m) rest c := by
  unfold selectClass
  rw [show withLibs lib (m :: rest) = (lib, m) :: withLibs (nextLib lib m) rest from rfl]
  rw [List.filterMap_cons]
  by_cases h : specClassify lib m = c <;> simp [h]

theorem classify_foldl (ms : List Mapping) : ∀ s : ClassifyState,
    List.foldl classifyStep s ms =
      { heap_mappings := s.heap_mappings ++ selectClass s.current_lib ms .heapM,
        anon_mappings := s.anon_mappings,
        globals_mappings := s.globals_mappings ++ selectClass s.current_lib ms .globalsM,
        stack_mappings := s.stack_mappings ++ selectClass s.current_lib ms .stacksM,
        current_lib := List.foldl nextLib s.current_lib ms } := by
  induction ms with
  | nil =>
    intro s
    simp [selectClass, withLibs]
  | cons m rest ih =>
    intro s
    rw [List.foldl_cons, classifyStep_eq, ih]
    rw [List.foldl_cons]
    rcases hc : specClassify s.current_lib m <;>
      simp [applyClass, selectClass_cons, hc]

/-- A half-open region `[begin, end)` of the address space
(embeds `struct Range` of the heap walker). -/
structure Range where
  begin_ : Nat
  end_ : Nat
deriving DecidableEq, Repr

/-- Captured state of one sibling thread: its id, its register file as an
opaque byte blob, and its `stack` pair whose first component is the stack
pointer (embeds `struct ThreadInfo`). -/
structure ThreadInfo where
  tid : Nat
  regs : List Nat
  stack : Nat × Nat
deriving DecidableEq, Repr

/-- A root queued for the mark phase: either a memory region
(`HeapWalker::Root(begin, end)`) or a copied register blob
(`HeapWalker::Root(bytes)`). -/
inductive Root where
  | range (r : Range)
  | regs (bytes : List Nat)
deriving DecidableEq, Repr

/-- The inner loop of `MemUnreachable::CollectAllocations` over the
stack-classified mappings for one captured thread: a root from the thread's
stack pointer to the mapping's end is queued whenever
`stack.first >= begin && stack.first <= end` (note the inclusive upper
bound in the source). -/
def stackRootsFor (t : ThreadInfo) (stack_mappings : List Mapping) : List Root :=
  stack_mappings.foldl
    (fun acc m =>
      if t.stack.fst ≥ m.begin_ ∧ t.stack.fst ≤ m.end_ then
        acc ++ [Root.range ⟨t.stack.fst, m.end_⟩]
      else acc) []

/-- The outer loop of `MemUnreachable::CollectAllocations` over the captured
threads: for each thread, its stack roots followed by its register blob
root (queued unconditionally). -/
def threadRoots (threads : List ThreadInfo) (stack_mappings : List Mapping) : List Root :=
  threads.foldl (fun acc t => acc ++ stackRootsFor t stack_mappings ++ [Root.regs t.regs]) []

/-- Embeds `MemUnreachable::CollectAllocations`.  The allocator enumeration
callback (`malloc_iterate`, an external collaborator) is passed in as
`heapIterate`, returning the `(base, size)` pairs it reports for a heap
mapping.  The result is the list of allocation ranges inserted into the
heap walker and the list of roots queued, in source order: heap-mapping
allocations, anonymous-mapping allocations, globals roots, then per-thread
stack and register roots. -/
def MemUnreachable.CollectAllocations (heapIterate : Mapping → List (Nat × Nat))
    (threads : List ThreadInfo) (mappings : List Mapping) :
    Option (List Range × List Root) :=
  match MemUnreachable.ClassifyMappings mappings with
  | none => none
  | some cls =>
    let heapAllocs := cls.heap_mappings.flatMap
      (fun m => (heapIterate m).map (fun p => Range.mk p.1 (p.1 + p.2)))
    let anonAllocs := cls.anon_mappings.map (fun m => Range.mk m.begin_ m.end_)
    let globalsRoots := cls.globals_mappings.map (fun m => Root.range ⟨m.begin_, m.end_⟩)
    some (heapAllocs ++ anonAllocs, globalsRoots ++ threadRoots threads cls.stack_mappings)

/-- An entry of the heap walker's allocation index: a range plus the
`referenced` bit that the mark phase computes. -/
structure Allocation where
  begin_ : Nat
  end_ : Nat
  referenced : Bool
deriving DecidableEq, Repr

/-- Byte size of an allocation. -/
def allocSize (a : Allocation) : Nat := a.end_ - a.begin_

/-- The sweep's emission order: decreasing size, ties broken by ascending
begin address. -/
def leakOrd (a b : Allocation) : Prop :=
  allocSize b < allocSize a ∨ (allocSize a = allocSize b ∧ a.begin_ ≤ b.begin_)

instance : DecidableRel leakOrd := fun a b => by
  unfold leakOrd; infer_instance

instance : IsTotal Allocation leakOrd := by
  constructor
  intro a b
  unfold leakOrd
  omega

instance : IsTrans Allocation leakOrd := by
  constructor
  intro a b c hab hbc
  unfold leakOrd at hab hbc ⊢
  omega

/-- Modelled from the spec: `HeapWalker::Leaked` (the HeapWalker source is
not part of the repository snapshot).  The sweep iterates the allocation
index; every allocation whose `referenced` bit is false is a leak; the
true totals `num_leaks` and `leak_bytes` are always computed over all
leaks, and the emitted vector holds at most `limit` of them, sorted by
decreasing size with ties broken by ascending begin.  The `referenced`
bits produced by the mark phase are taken as input. -/
def Leaked (allocations : List Allocation) (limit : Nat) : List Range × Nat × Nat :=
  let leaked := allocations.filter (fun a => !a.referenced)
  let sorted := (List.insertionSort leakOrd leaked).map (fun a => Range.mk a.begin_ a.end_)
  (sorted.take limit, leaked.length, (leaked.map allocSize).sum)

/-- Modelled from the spec: the fixed ceiling `Leak::contents_length` (its
declaration lives in the `memunreachable.h` header, which is not part of
the snapshot); the spec fixes it at the first 32 bytes by convention. -/
def contents_length : Nat := 32

/-- A reported leak: begin address, size, and the leading bytes of its
contents (embeds `struct Leak`). -/
structure Leak where
  begin_ : Nat
  size : Nat
  contents : List Nat
deriving DecidableEq, Repr

/-- Reads `n` bytes from address `src` upward.  Memory is a partial map;
the plain `memcpy` of the source has no unreadable-page handling, so an
unreadable byte anywhere in the range makes the whole read fault
(modelled as `none`). -/
def memcpyRead (mem : Nat → Option Nat) (src : Nat) : Nat → Option (List Nat)
  | 0 => some []
  | n + 1 =>
    match mem src, memcpyRead mem (src + 1) n with
    | some b, some bs => some (b :: bs)
    | _, _ => none

/-- Embeds the per-leak body of the loop in
`MemUnreachable::GetUnreachableMemory`: `Leak leak{}` zero-initialises the
record, then `memcpy(leak.contents, begin, min(size, contents_length))`
copies the leading bytes; the remainder of `contents` keeps its zero
initialisation. -/
def buildLeak (mem : Nat → Option Nat) (r : Range) : Option Leak :=
  let size := r.end_ - r.begin_
  let n := min size contents_length
  match memcpyRead mem r.begin_ n with
  | none => none
  | some bytes =>
    some { begin_ := r.begin_, size := size,
           contents := bytes ++ List.replicate (contents_length - n) 0 }

/-- The loop of `MemUnreachable::GetUnreachableMemory` that turns the
leaked ranges into `Leak` records in order; a faulting `memcpy` aborts
the run. -/
def buildLeaks (mem : Nat → Option Nat) : List Range → Option (List Leak)
  | [] => some []
  | r :: rest =>
    match buildLeak mem r, buildLeaks mem rest with
    | some l, some ls => some (l :: ls)
    | _, _ => none

/-- Embeds `MemUnreachable::GetUnreachableMemory` (the member function):
clears the output vector, runs the sweep, then copies each leaked range
into a `Leak` record.  The out-parameters `num_leaks` and `leak_bytes`
and the filled vector are returned as a tuple. -/
def MemUnreachable.GetUnreachableMemory (mem : Nat → Option Nat)
    (allocations : List Allocation) (limit : Nat) : Option (List Leak × Nat × Nat) :=
  match Leaked allocations limit with
  | (leaked, num_leaks, leak_bytes) =>
    match buildLeaks mem leaked with
    | none => none
    | some leaks => some (leaks, num_leaks, leak_bytes)

/-- One message on the leak pipe: either one scalar (`Send`) or one vector
of leaks (`SendVector`). -/
inductive Msg where
  | scalar (n : Nat)
  | vec (ls : List Leak)
deriving DecidableEq, Repr

/-- The chain `ok = ok && Send(...)` of the child: messages are attempted
in order, the `i`-th attempt succeeding when `sendOks i` is true; a failed
send delivers nothing and stops the chain (short-circuit on `&&`).
Returns whether every send succeeded and the delivered message stream. -/
def sendLoopAux (sendOks : Nat → Bool) : List Msg → Nat → Bool × List Msg
  | [], _ => (true, [])
  | m :: rest, i =>
    if sendOks i then
      let r := sendLoopAux sendOks rest (i + 1)
      (r.1, m :: r.2)
    else (false, [])

/-- All sends of a message list, starting at attempt index 0. -/
def sendLoop (msgs : List Msg) (sendOks : Nat → Bool) : Bool × List Msg :=
  sendLoopAux sendOks msgs 0

/-- Modelled from the spec: `LeakPipe` receive of one scalar (the LeakPipe
source is not part of the repository snapshot).  Peer death or a message
of the wrong shape is end-of-stream and fails. -/
def receiveScalar : List Msg → Option (Nat × List Msg)
  | Msg.scalar n :: rest => some (n, rest)
  | _ => none

/-- Modelled from the spec: `LeakPipe` receive of one vector (length then
elements, received as one message; a short read fails without output). -/
def receiveVector : List Msg → Option (List Leak × List Msg)
  | Msg.vec ls :: rest => some (ls, rest)
  | _ => none

/-- The public result record (embeds `struct UnreachableMemoryInfo`). -/
structure UnreachableMemoryInfo where
  num_allocations : Nat
  allocation_bytes : Nat
  num_leaks : Nat
  leak_bytes : Nat
  leaks : List Leak
deriving DecidableEq, Repr

/-- A default-constructed `UnreachableMemoryInfo`. -/
def defaultInfo : UnreachableMemoryInfo :=
  { num_allocations := 0, allocation_bytes := 0, num_leaks := 0, leak_bytes := 0, leaks := [] }

/-- The receive chain of the original thread in `GetUnreachableMemory`:
`ok = ok && Receive(&info.num_allocations); ...` — each successful receive
writes directly into the caller's `info` field, and the chain
short-circuits at the first failure. -/
def parentReceive (stream : List Msg) (info : UnreachableMemoryInfo) :
    Bool × UnreachableMemoryInfo :=
  match receiveScalar stream with
  | none => (false, info)
  | some (v, s) =>
    let info := { info with num_allocations := v }
    match receiveScalar s with
    | none => (false, info)
    | some (v, s) =>
      let info := { info with allocation_bytes := v }
      match receiveScalar s with
      | none => (false, info)
      | some (v, s) =>
        let info := { info with num_leaks := v }
        match receiveScalar s with
        | none => (false, info)
        | some (v, s) =>
          let info := { info with leak_bytes := v }
          match receiveVector s with
          | none => (false, info)
          | some (ls, _) => (true, { info with leaks := ls })

/-- Everything the forked heap-walker child reads from its collaborators:
whether `pipe.OpenSender()` succeeds, the allocator enumeration callback,
the captured thread info and mapping snapshot it inherits, the mark
phase's verdict for each allocation range, the (copy-on-write) memory
image, the caller's `limit`, and the success of each pipe send. -/
structure ChildEnv where
  openSenderOk : Bool
  heapIterate : Mapping → List (Nat × Nat)
  threads : List ThreadInfo
  mappings : List Mapping
  markOracle : Nat → Nat → Bool
  mem : Nat → Option Nat
  limit : Nat
  sendOks : Nat → Bool

/-- The walker's allocation index in the child after
`CollectAllocations` and the mark phase: each collected range tagged with
its `referenced` bit. -/
def childMarked (env : ChildEnv) : List Allocation :=
  match MemUnreachable.CollectAllocations env.heapIterate env.threads env.mappings with
  | none => []
  | some (ranges, _) => ranges.map (fun r => ⟨r.begin_, r.end_, env.markOracle r.begin_ r.end_⟩)

/-- `unreachable.Allocations()` in the child. -/
def childNumAllocations (env : ChildEnv) : Nat := (childMarked env).length

/-- `unreachable.AllocationBytes()` in the child. -/
def childAllocationBytes (env : ChildEnv) : Nat :=
  ((childMarked env).map allocSize).sum

/-- The child's sweep: `unreachable.GetUnreachableMemory(leaks, limit, ...)`. -/
def childSweep (env : ChildEnv) : Option (List Leak × Nat × Nat) :=
  MemUnreachable.GetUnreachableMemory env.mem (childMarked env) env.limit

/-- The five messages the child sends on success, in source order. -/
def childMsgs (env : ChildEnv) (leaks : List Leak) (num_leaks leak_bytes : Nat) : List Msg :=
  [Msg.scalar (childNumAllocations env), Msg.scalar (childAllocationBytes env),
   Msg.scalar num_leaks, Msg.scalar leak_bytes, Msg.vec leaks]

/-- Embeds the heap-walker child branch of the `PtracerThread` lambda in
the public `GetUnreachableMemory` (the `fork() == 0` branch): open the
pipe sender or `_exit(1)`; collect allocations or `_exit(2)`; sweep and
send the four counters then the leak vector, `_exit(3)` if anything in
that chain failed, else `_exit(0)`.  Returns the exit status (`none`
models a crash: the plain `memcpy` of the sweep faulting on unreadable
memory, so that the child never reaches `_exit`) and the messages
delivered into the pipe. -/
def childRun (env : ChildEnv) : Option Nat × List Msg :=
  if env.openSenderOk = false then (some 1, [])
  else
    match MemUnreachable.CollectAllocations env.heapIterate env.threads env.mappings with
    | none => (some 2, [])
    | some _ =>
      match childSweep env with
      | none => (none, [])
      | some (leaks, num_leaks, leak_bytes) =>
        let r := sendLoop (childMsgs env leaks num_leaks leak_bytes) env.sendOks
        (if r.1 then some 0 else some 3, r.2)

/-- Everything the original thread observes: the child's environment, the
success bits of the capture thread's steps (`CaptureThreads`,
`CapturedThreadInfo`, `ProcessMappings`, `fork`), whether the bounded
semaphore wait timed out, and whether `pipe.OpenReceiver()` succeeds. -/
structure ParentEnv where
  child : ChildEnv
  captureOk : Bool
  capturedInfoOk : Bool
  mappingsOk : Bool
  forkOk : Bool
  semTimedOut : Bool
  openReceiverOk : Bool

/-- The return value of the `PtracerThread` lambda as observed by
`thread.Join()`: 1 if capturing threads, collecting thread info, reading
the mappings, or `fork` fails; 0 otherwise (the parent-of-fork branch
returns immediately). -/
def collectionThreadRet (env : ParentEnv) : Nat :=
  if env.captureOk = false then 1
  else if env.capturedInfoOk = false then 1
  else if env.mappingsOk = false then 1
  else if env.forkOk = false then 1
  else 0

/-- The pipe contents the original thread can read: the child exists (and
has sent its messages) exactly when the collection thread reached `fork`
and it succeeded; otherwise the stream is empty (end-of-stream). -/
def childStream (env : ParentEnv) : List Msg :=
  if collectionThreadRet env = 0 then (childRun env.child).2 else []

/-- Embeds the public `GetUnreachableMemory(info, limit)` as seen from the
original thread: wait on the hand-off semaphore (the source discards the
`Wait` result, so the timeout bit is read and ignored here), join the
collection thread and fail on a nonzero return, open the pipe receiver or
fail, then run the receive chain into the caller's `info`. -/
def GetUnreachableMemory (env : ParentEnv) (info : UnreachableMemoryInfo) :
    Bool × UnreachableMemoryInfo :=
  let _timedOut := env.semTimedOut
  if collectionThreadRet env ≠ 0 then (false, info)
  else if env.openReceiverOk = false then (false, info)
  else parentReceive (childStream env) info

/-- The header line `LogUnreachable` emits for one leak:
`unreachable allocation at <begin> of approximate size <size>` (modelled
as the pair of values; the optional hex dump adds lines but no other
information). -/
def LogUnreachable (leak : Leak) : Nat × Nat := (leak.begin_, leak.size)

/-- Embeds `LogUnreachableMemory`: run a collection into a fresh
`UnreachableMemoryInfo`; on failure return false, otherwise log every
leak of the returned vector and return true.  The second component is the
list of logged header lines. -/
def LogUnreachableMemory (env : ParentEnv) : Bool × List (Nat × Nat) :=
  match GetUnreachableMemory env defaultInfo with
  | (false, _) => (false, [])
  | (true, info) => (true, info.leaks.map LogUnreachable)

/-! ### Claim C4: the mapping classifier -/

/-- C4: for every sequence of input mappings, the classifier assigns each
mapping by the first matching rule of the ordered list transcribed in
`specClassify` (executable: no list, becomes the current library;
unreadable: dropped; `[anon:.bss]`, the current library name,
`/dev/ashmem/dalvik`-named, empty-named, and other `[anon:`-named mappings
except `[anon:leak_detector_malloc]`: globals; `[anon:libc_malloc]`: heap;
`[stack`-named: stacks; everything else, including
`[anon:leak_detector_malloc]`: no list), where the current-library name
seen by each mapping is the name of the most recent executable mapping
before it (initially empty), as computed by `withLibs`.  The
`anon_mappings` output list is never populated. -/
theorem C4_classify_rules (mappings : List Mapping) :
    MemUnreachable.ClassifyMappings mappings = some (classifyOf mappings) ∧
    (classifyOf mappings).heap_mappings = selectClass "" mappings .heapM ∧
    (classifyOf mappings).globals_mappings = selectClass "" mappings .globalsM ∧
    (classifyOf mappings).stack_mappings = selectClass "" mappings .stacksM ∧
    (classifyOf mappings).anon_mappings = [] := by
  refine ⟨rfl, ?_, ?_, ?_, ?_⟩ <;>
    (unfold classifyOf; rw [classify_foldl]; try simp)

/-! ### Claim C9: stack and register roots in CollectAllocations -/

theorem foldl_append_acc {α β : Type} (f : α → List β) :
    ∀ (l : List α) (a : List β),
      l.foldl (fun acc t => acc ++ f t) a = a ++ l.flatMap f
  | [], a => by simp
  | t :: rest, a => by
    rw [List.foldl_cons, foldl_append_acc f rest (a ++ f t)]
    simp

theorem stackRootsFor_foldl (t : ThreadInfo) :
    ∀ (sm : List Mapping) (a : List Root),
      sm.foldl
        (fun acc m =>
          if t.stack.fst ≥ m.begin_ ∧ t.stack.fst ≤ m.end_ then
            acc ++ [Root.range ⟨t.stack.fst, m.end_⟩]
          else acc) a =
      a ++ (sm.filter
          (fun m => decide (m.begin_ ≤ t.stack.fst ∧ t.stack.fst ≤ m.end_))).map
        (fun m => Root.range ⟨t.stack.fst, m.end_⟩)
  | [], a => by simp
  | m :: rest, a => by
    rw [List.foldl_cons]
    by_cases h : t.stack.fst ≥ m.begin_ ∧ t.stack.fst ≤ m.end_
    · rw [if_pos h, stackRootsFor_foldl t rest (a ++ [Root.range ⟨t.stack.fst, m.end_⟩])]
      have h' : (m.begin_ ≤ t.stack.fst ∧ t.stack.fst ≤ m.end_) := ⟨h.1, h.2⟩
      simp [List.filter_cons, h']
    · rw [if_neg h, stackRootsFor_foldl t rest a]
      have h' : ¬(m.begin_ ≤ t.stack.fst ∧ t.stack.fst ≤ m.end_) := fun hc => h ⟨hc.1, hc.2⟩
      simp [List.filter_cons, h']

theorem stackRootsFor_eq (t : ThreadInfo) (sm : List Mapping) :
    stackRootsFor t sm =
      (sm.filter (fun m => decide (m.begin_ ≤ t.stack.fst ∧ t.stack.fst ≤ m.end_))).map
        (fun m => Root.range ⟨t.stack.fst, m.end_⟩) := by
  unfold stackRootsFor
  rw [stackRootsFor_foldl]
  simp

theorem threadRoots_eq (threads : List ThreadInfo) (sm : List Mapping) :
    threadRoots threads sm =
      threads.flatMap (fun t =>
        ((sm.filter (fun m => decide (m.begin_ ≤ t.stack.fst ∧ t.stack.fst ≤ m.end_))).map
          (fun m => Root.range ⟨t.stack.fst, m.end_⟩)) ++ [Root.regs t.regs]) := by
  unfold threadRoots
  have : (fun (acc : List Root) (t : ThreadInfo) =>
      acc ++ stackRootsFor t sm ++ [Root.regs t.regs]) =
      (fun acc t => acc ++ (stackRootsFor t sm ++ [Root.regs t.regs])) := by
    funext acc t
    rw [List.append_assoc]
  rw [this, foldl_append_acc (fun t => stackRootsFor t sm ++ [Root.regs t.regs]) threads []]
  simp only [List.nil_append]
  congr 1
  funext t
  rw [stackRootsFor_eq]

/-- C9: for every captured thread, `CollectAllocations` queues one stack
root spanning `[stack_top, m.end)` for each stack-classified mapping `m`
with `m.begin <= stack_top <= m.end` (inclusive upper bound, so a thread
whose stack pointer equals a mapping's one-past-the-end address still
produces a root, unlike the half-open region convention), never scanning
the part of the stack mapping below `stack_top`; and the thread's register
blob is queued as a root unconditionally, even when no stack mapping
contains its stack pointer. -/
theorem C9_stack_roots (heapIterate : Mapping → List (Nat × Nat))
    (threads : List ThreadInfo) (mappings : List Mapping)
    (out : List Range × List Root)
    (h : MemUnreachable.CollectAllocations heapIterate threads mappings = some out) :
    out.2 = ((classifyOf mappings).globals_mappings.map
        (fun m => Root.range ⟨m.begin_, m.end_⟩))
      ++ threads.flatMap (fun t =>
          (((classifyOf mappings).stack_mappings.filter
              (fun m => decide (m.begin_ ≤ t.stack.fst ∧ t.stack.fst ≤ m.end_))).map
            (fun m => Root.range ⟨t.stack.fst, m.end_⟩))
          ++ [Root.regs t.regs]) ∧
    ∀ t ∈ threads, Root.regs t.regs ∈ out.2 := by
  unfold MemUnreachable.CollectAllocations MemUnreachable.ClassifyMappings at h
  simp only [Option.some.injEq] at h
  subst h
  constructor
  · simp only
    rw [threadRoots_eq]
  · intro t ht
    simp only
    rw [threadRoots_eq]
    refine List.mem_append_right _ ?_
    rw [List.mem_flatMap]
    exact ⟨t, ht, List.mem_append_right _ (List.mem_singleton.mpr rfl)⟩

/-- A concrete run for the stack-root claim: one thread whose stack
pointer sits exactly at the end of the lone stack mapping. -/
def c9threads : List ThreadInfo := [⟨7, [42], (1000, 0)⟩]

/-- A single stack mapping `[900, 1000)` for the concrete stack-root run. -/
def c9mappings : List Mapping := [⟨900, 1000, true, true, false, "[stack:7]"⟩]

/-- The concrete result of `CollectAllocations` on the stack-root run. -/
def c9out : List Range × List Root :=
  (MemUnreachable.CollectAllocations (fun _ => []) c9threads c9mappings).getD ([], [])

theorem C9_stack_roots_witness :
    Root.regs [42] ∈ c9out.2 ∧
    c9out.2 = [Root.range ⟨1000, 1000⟩, Root.regs [42]] := by
  have h := C9_stack_roots (fun _ => []) c9threads c9mappings c9out rfl
  refine ⟨h.2 ⟨7, [42], (1000, 0)⟩ (List.mem_singleton.mpr rfl), by decide⟩

/-! ### Claims C3 and C7: sweep totals, sorting and truncation -/

theorem buildLeak_fields (mem : Nat → Option Nat) (r : Range) (l : Leak)
    (h : buildLeak mem r = some l) :
    l.begin_ = r.begin_ ∧ l.size = r.end_ - r.begin_ := by
  unfold buildLeak at h
  rcases hm : memcpyRead mem r.begin_ (min (r.end_ - r.begin_) contents_length) with _ | bytes <;>
    simp only [hm] at h
  · exact Option.noConfusion h
  · cases h
    exact ⟨rfl, rfl⟩

theorem buildLeaks_length (mem : Nat → Option Nat) :
    ∀ (rs : List Range) (ls : List Leak),
      buildLeaks mem rs = some ls → ls.length = rs.length := by
  intro rs
  induction rs with
  | nil =>
    intro ls h
    cases h
    rfl
  | cons r rest ih =>
    intro ls h
    unfold buildLeaks at h
    split at h
    · cases h
      simp only [List.length_cons]
      rename_i l ls' hl hrest
      rw [ih ls' hrest]
    · exact Option.noConfusion h

theorem buildLeaks_take (mem : Nat → Option Nat) :
    ∀ (rs : List Range) (ls : List Leak) (n : Nat),
      buildLeaks mem rs = some ls →
      buildLeaks mem (rs.take n) = some (ls.take n) := by
  intro rs
  induction rs with
  | nil =>
    intro ls n h
    cases h
    simp [buildLeaks]
  | cons r rest ih =>
    intro ls n h
    unfold buildLeaks at h
    split at h
    · cases h
      rename_i l ls' hl hrest
      cases n with
      | zero => simp [buildLeaks]
      | succ n =>
        simp only [List.take_succ_cons]
        unfold buildLeaks
        rw [hl, ih ls' n hrest]
    · exact Option.noConfusion h

theorem buildLeaks_map_eq (mem : Nat → Option Nat) :
    ∀ (rs : List Range) (ls : List Leak),
      buildLeaks mem rs = some ls →
      ls.map (fun l => (l.size, l.begin_)) =
        rs.map (fun r => (r.end_ - r.begin_, r.begin_)) := by
  intro rs
  induction rs with
  | nil =>
    intro ls h
    cases h
    rfl
  | cons r rest ih =>
    intro ls h
    unfold buildLeaks at h
    split at h
    · cases h
      rename_i l ls' hl hrest
      simp only [List.map_cons]
      obtain ⟨hb, hs⟩ := buildLeak_fields mem r l hl
      rw [hb, hs, ih ls' hrest]
    · exact Option.noConfusion h

theorem getUnreachableMemory_eq (mem : Nat → Option Nat)
    (allocations : List Allocation) (limit : Nat) :
    MemUnreachable.GetUnreachableMemory mem allocations limit =
      match buildLeaks mem (Leaked allocations limit).1 with
      | none => none
      | some leaks => some (leaks, (Leaked allocations limit).2.1, (Leaked allocations limit).2.2) :=
  rfl

theorem Leaked_fst_take (allocations : List Allocation) (limit₁ limit₂ : Nat)
    (hle : limit₁ ≤ limit₂) :
    (Leaked allocations limit₁).1 = (Leaked allocations limit₂).1.take limit₁ := by
  unfold Leaked
  simp only
  rw [List.take_take, Nat.min_eq_left hle]

/-- C3: the totals reported through the sweep are the true number and total
byte size of all unreachable allocations in the index, independent of the
`limit` argument; changing the limit changes only the length of the leaks
vector (the shorter run's vector is a prefix of the longer run's). -/
theorem C3_totals_independent_of_limit (mem : Nat → Option Nat)
    (allocations : List Allocation) (limit₁ limit₂ : Nat)
    (out₁ out₂ : List Leak × Nat × Nat) (hle : limit₁ ≤ limit₂)
    (h₁ : MemUnreachable.GetUnreachableMemory mem allocations limit₁ = some out₁)
    (h₂ : MemUnreachable.GetUnreachableMemory mem allocations limit₂ = some out₂) :
    out₁.2.1 = (allocations.filter (fun a => !a.referenced)).length ∧
    out₁.2.2 = ((allocations.filter (fun a => !a.referenced)).map allocSize).sum ∧
    out₁.2.1 = out₂.2.1 ∧ out₁.2.2 = out₂.2.2 ∧
    out₁.1 = out₂.1.take limit₁ := by
  rw [getUnreachableMemory_eq] at h₁ h₂
  rcases hb₁ : buildLeaks mem (Leaked allocations limit₁).1 with _ | ls₁ <;> rw [hb₁] at h₁
  · exact Option.noConfusion h₁
  cases h₁
  rcases hb₂ : buildLeaks mem (Leaked allocations limit₂).1 with _ | ls₂ <;> rw [hb₂] at h₂
  · exact Option.noConfusion h₂
  cases h₂
  refine ⟨rfl, rfl, rfl, rfl, ?_⟩
  have htake := buildLeaks_take mem _ ls₂ limit₁ hb₂
  rw [← Leaked_fst_take allocations limit₁ limit₂ hle, hb₁] at htake
  exact Option.some.inj htake

/-- A fully readable memory image holding zero bytes everywhere, for
concrete runs. -/
def memZero : Nat → Option Nat := fun _ => some 0

/-- Three allocations, two of them unreachable (sizes 4 and 7), for the
concrete totals run. -/
def c3allocs : List Allocation := [⟨0, 4, false⟩, ⟨10, 12, true⟩, ⟨20, 27, false⟩]

/-- The sweep on the totals run with limit 1. -/
def c3out1 : List Leak × Nat × Nat :=
  (MemUnreachable.GetUnreachableMemory memZero c3allocs 1).getD ([], 0, 0)

/-- The sweep on the totals run with limit 5. -/
def c3out2 : List Leak × Nat × Nat :=
  (MemUnreachable.GetUnreachableMemory memZero c3allocs 5).getD ([], 0, 0)

theorem C3_totals_witness :
    c3out1.2.1 = 2 ∧ c3out1.2.2 = 11 ∧
    c3out1.2.1 = c3out2.2.1 ∧ c3out1.2.2 = c3out2.2.2 ∧
    c3out1.1 = c3out2.1.take 1 := by
  have h := C3_totals_independent_of_limit memZero c3allocs 1 5 c3out1 c3out2
    (by decide) rfl rfl
  exact ⟨h.1.trans (by decide), h.2.1.trans (by decide), h.2.2.1, h.2.2.2.1, h.2.2.2.2⟩

/-- The claim's emission order on pairs `(size, begin)`: decreasing first
component, ties by ascending second component. -/
def pairOrd (x y : Nat × Nat) : Prop := y.1 < x.1 ∨ (x.1 = y.1 ∧ x.2 ≤ y.2)

/-- The claim's emission order on emitted leaks: decreasing size, ties by
ascending begin address. -/
def leakOutOrd (x y : Leak) : Prop :=
  y.size < x.size ∨ (x.size = y.size ∧ x.begin_ ≤ y.begin_)

theorem pairwise_leaks_of_ranges (mem : Nat → Option Nat) (rs : List Range) (ls : List Leak)
    (h : buildLeaks mem rs = some ls)
    (hp : rs.Pairwise (fun x y =>
      pairOrd (x.end_ - x.begin_, x.begin_) (y.end_ - y.begin_, y.begin_))) :
    ls.Pairwise leakOutOrd := by
  have hmap := buildLeaks_map_eq mem rs ls h
  have h₁ : (rs.map (fun r => (r.end_ - r.begin_, r.begin_))).Pairwise pairOrd :=
    List.pairwise_map.mpr hp
  rw [← hmap] at h₁
  have h₂ := List.pairwise_map.mp h₁
  exact h₂.imp (fun hab => hab)

theorem Leaked_pairwise (allocations : List Allocation) (limit : Nat) :
    (Leaked allocations limit).1.Pairwise (fun x y =>
      pairOrd (x.end_ - x.begin_, x.begin_) (y.end_ - y.begin_, y.begin_)) := by
  unfold Leaked
  simp only
  apply List.Pairwise.sublist (List.take_sublist _ _)
  rw [List.pairwise_map]
  exact List.sorted_insertionSort leakOrd (allocations.filter (fun a => !a.referenced))

/-- The five leaked allocations of the S5 scenario, sizes 10, 20, 30, 40
and 50, none referenced. -/
def s5allocs : List Allocation :=
  [⟨0, 10, false⟩, ⟨100, 120, false⟩, ⟨200, 230, false⟩, ⟨300, 340, false⟩, ⟨400, 450, false⟩]

/-- The sweep on the S5 scenario with limit 3. -/
def s5out : List Leak × Nat × Nat :=
  (MemUnreachable.GetUnreachableMemory memZero s5allocs 3).getD ([], 0, 0)

/-- C7: every successful sweep returns at most `limit` leaks, sorted by
decreasing size with ties broken by ascending begin; and on the concrete
S5 scenario (five unreachable allocations of sizes 10..50, limit 3) the
vector has length 3 with sizes 50, 40, 30 while `num_leaks` is 5 and
`leak_bytes` is 150. -/
theorem C7_sorted_truncation :
    (∀ (mem : Nat → Option Nat) (allocations : List Allocation) (limit : Nat)
        (out : List Leak × Nat × Nat),
      MemUnreachable.GetUnreachableMemory mem allocations limit = some out →
      out.1.length ≤ limit ∧ out.1.Pairwise leakOutOrd) ∧
    (MemUnreachable.GetUnreachableMemory memZero s5allocs 3 = some s5out ∧
     s5out.1.map (fun l => l.size) = [50, 40, 30] ∧
     s5out.1.length = 3 ∧ s5out.2.1 = 5 ∧ s5out.2.2 = 150) := by
  constructor
  · intro mem allocations limit out h
    rw [getUnreachableMemory_eq] at h
    rcases hb : buildLeaks mem (Leaked allocations limit).1 with _ | ls <;> rw [hb] at h
    · exact Option.noConfusion h
    cases h
    constructor
    · rw [buildLeaks_length mem _ ls hb]
      unfold Leaked
      simp only
      exact List.length_take_le _ _
    · exact pairwise_leaks_of_ranges mem _ ls hb (Leaked_pairwise allocations limit)
  · exact ⟨rfl, by decide, by decide, rfl, rfl⟩

theorem C7_sorted_truncation_witness :
    s5out.1.length ≤ 3 ∧ s5out.1.Pairwise leakOutOrd :=
  C7_sorted_truncation.1 memZero s5allocs 3 s5out rfl

/-! ### Claim C8: leak-contents copy -/

/-- The contents copy as the claim describes it: bytes are read upward from
`src` and, from the first unreadable byte on, the rest of the copied
region is zero-filled instead of faulting. -/
def readOrZero (mem : Nat → Option Nat) (src : Nat) : Nat → List Nat
  | 0 => []
  | n + 1 =>
    match mem src with
    | some b => b :: readOrZero mem (src + 1) n
    | none => List.replicate (n + 1) 0

/-- The per-leak contents copy as the claim describes it: always defined,
zero-filling the remainder when the region becomes unreadable mid-copy. -/
def buildLeakClaim (mem : Nat → Option Nat) (r : Range) : Leak :=
  let size := r.end_ - r.begin_
  let n := min size contents_length
  { begin_ := r.begin_, size := size,
    contents := readOrZero mem r.begin_ n ++ List.replicate (contents_length - n) 0 }

/-- A memory image whose byte 0 is readable (holding 7) and whose byte 1 is
not. -/
def cexMemC8 : Nat → Option Nat := fun a => if a = 0 then some 7 else none

/-- A two-byte leak range over `cexMemC8`, unreadable from its second byte
on. -/
def cexRangeC8 : Range := ⟨0, 2⟩

/-- C8 counterexample: on a region that becomes unreadable mid-copy, the
source's plain `memcpy` faults (the embedded copy is undefined) instead of
producing the zero-filled contents the claim promises. -/
theorem C8_counterexample :
    buildLeak cexMemC8 cexRangeC8 = none ∧
    buildLeakClaim cexMemC8 cexRangeC8 =
      { begin_ := 0, size := 2, contents := 7 :: List.replicate 31 0 } := by
  exact ⟨rfl, by decide⟩

theorem memcpyRead_eq (mem : Nat → Option Nat) :
    ∀ (n src : Nat), (∀ i, i < n → mem (src + i) ≠ none) →
      memcpyRead mem src n =
        some ((List.range n).map (fun i => (mem (src + i)).getD 0)) := by
  intro n
  induction n with
  | zero =>
    intro src _
    rfl
  | succ n ih =>
    intro src h
    have h0 : mem src ≠ none := by
      have := h 0 (Nat.succ_pos n)
      simpa using this
    rcases hm : mem src with _ | b
    · exact absurd hm h0
    have hrest : ∀ i, i < n → mem (src + 1 + i) ≠ none := by
      intro i hi
      have := h (i + 1) (Nat.succ_lt_succ hi)
      have harith : src + (i + 1) = src + 1 + i := by omega
      rwa [harith] at this
    unfold memcpyRead
    rw [hm, ih (src + 1) hrest]
    rw [List.range_succ_eq_map]
    simp only [List.map_cons, List.map_map, Option.some.injEq]
    congr 1
    · rw [Nat.add_zero, hm]
      rfl
    · apply List.map_congr_left
      intro i _
      simp only [Function.comp_apply]
      have harith : src + 1 + i = src + (i + 1) := by omega
      rw [harith]

/-- C8 (amended): when every byte of the copied region is readable, the
copy succeeds and transfers exactly `min(size, contents_length)` bytes
starting at `begin` into `contents`, whose remainder keeps the record's
zero initialisation; when the region becomes unreadable mid-copy, the
plain `memcpy` faults (no zero-filled result is produced). -/
theorem C8_contents_copy (mem : Nat → Option Nat) (r : Range)
    (h : ∀ i, i < min (r.end_ - r.begin_) contents_length → mem (r.begin_ + i) ≠ none) :
    buildLeak mem r =
      some { begin_ := r.begin_, size := r.end_ - r.begin_,
             contents :=
               (List.range (min (r.end_ - r.begin_) contents_length)).map
                   (fun i => (mem (r.begin_ + i)).getD 0)
                 ++ List.replicate
                     (contents_length - min (r.end_ - r.begin_) contents_length) 0 } := by
  have hm := memcpyRead_eq mem (min (r.end_ - r.begin_) contents_length) r.begin_ h
  unfold buildLeak
  simp only [hm]

theorem C8_contents_copy_witness :
    buildLeak memZero ⟨0, 5⟩ = some { begin_ := 0, size := 5, contents := List.replicate 32 0 } := by
  have h := C8_contents_copy memZero ⟨0, 5⟩ (by intro i _; simp [memZero])
  exact h.trans (by decide)

/-! ### Claim C1: child exit codes -/

theorem sendLoopAux_full (sendOks : Nat → Bool) :
    ∀ (msgs : List Msg) (i : Nat),
      (sendLoopAux sendOks msgs i).1 = true → (sendLoopAux sendOks msgs i).2 = msgs := by
  intro msgs
  induction msgs with
  | nil => intro i _; rfl
  | cons m rest ih =>
    intro i h
    unfold sendLoopAux at h ⊢
    cases hok : sendOks i
    · simp [hok] at h
    · simp only [hok, if_true]
      simp only [hok, if_true] at h
      rw [ih (i + 1) h]

theorem sendLoop_five (a b c d e : Msg) (ok : Nat → Bool) :
    (sendLoop [a, b, c, d, e] ok).1 = (ok 0 && ok 1 && ok 2 && ok 3 && ok 4) := by
  cases h0 : ok 0 <;> cases h1 : ok 1 <;> cases h2 : ok 2 <;> cases h3 : ok 3 <;>
    cases h4 : ok 4 <;> simp [sendLoop, sendLoopAux, h0, h1, h2, h3, h4]

/-- The child-exit table exactly as the claim states it: pipe failure
(opening the sender or a send) exits 3, collection failure exits 2,
success exits 0. -/
def claimChildExit (pipeOk collectOk : Bool) : Nat :=
  if pipeOk = false then 3
  else if collectOk = false then 2
  else 0

/-- Environment for a concrete child run whose `OpenSender` call fails. -/
def cexChildEnv : ChildEnv :=
  { openSenderOk := false, heapIterate := fun _ => [], threads := [], mappings := [],
    markOracle := fun _ _ => false, mem := fun _ => some 0, limit := 100,
    sendOks := fun _ => true }

/-- C1 counterexample: when opening the pipe sender fails, the child exits
with status 1 (`_exit(1)` in the source), not the status 3 the claim's
table assigns to pipe failures. -/
theorem C1_counterexample :
    (childRun cexChildEnv).1 = some 1 ∧
    claimChildExit false true = 3 ∧ (1 : Nat) ≠ 3 :=
  ⟨rfl, rfl, by decide⟩

/-- C1 (amended): for every terminating child run the exit status is one of
0..3, assigned as the source does it — 1 exactly when `OpenSender` fails;
2 exactly when `CollectAllocations` fails (which the embedded classifier
never makes happen); 3 exactly when the sweep returned and some pipe send
failed; 0 exactly when the sweep returned and all five sends succeeded;
and the run does not terminate in `_exit` (the copy faults) exactly when
the sweep crashes.  Capture and fork failures are returned by the
collection thread, not encoded in a child exit status. -/
theorem C1_child_exit_codes (env : ChildEnv) :
    ((childRun env).1 = some 1 ↔ env.openSenderOk = false) ∧
    ((childRun env).1 = some 2 ↔ env.openSenderOk = true ∧
      MemUnreachable.CollectAllocations env.heapIterate env.threads env.mappings = none) ∧
    ((childRun env).1 = some 3 ↔ env.openSenderOk = true ∧ (childSweep env).isSome = true ∧
      (env.sendOks 0 && env.sendOks 1 && env.sendOks 2 && env.sendOks 3 &&
        env.sendOks 4) = false) ∧
    ((childRun env).1 = some 0 ↔ env.openSenderOk = true ∧ (childSweep env).isSome = true ∧
      (env.sendOks 0 && env.sendOks 1 && env.sendOks 2 && env.sendOks 3 &&
        env.sendOks 4) = true) ∧
    ((childRun env).1 = none ↔ env.openSenderOk = true ∧ childSweep env = none) := by
  cases hos : env.openSenderOk
  · unfold childRun
    simp [hos]
  · unfold childRun
    simp only [hos, Bool.true_eq_false, if_false,
      MemUnreachable.CollectAllocations, MemUnreachable.ClassifyMappings]
    rcases hsw : childSweep env with _ | ⟨leaks, num_leaks, leak_bytes⟩
    · simp [hsw]
    · simp only [hsw]
      unfold childMsgs
      rw [sendLoop_five]
      cases hsend : (env.sendOks 0 && env.sendOks 1 && env.sendOks 2 && env.sendOks 3 &&
          env.sendOks 4) <;> simp [hsend]

/-! ### Claim C2: partial results on the parent receive path -/

/-- C2 counterexample: a pipe stream holding one scalar and then
end-of-stream makes the receive chain fail, yet the caller's record is no
longer untouched — `num_allocations` was already populated from the
partially received message. -/
theorem C2_counterexample :
    (parentReceive [Msg.scalar 7] defaultInfo).1 = false ∧
    (parentReceive [Msg.scalar 7] defaultInfo).2 ≠ defaultInfo ∧
    (parentReceive [Msg.scalar 7] defaultInfo).2.num_allocations = 7 :=
  ⟨rfl, by decide, rfl⟩

theorem parentReceive_cases (stream : List Msg) (info : UnreachableMemoryInfo) :
    (parentReceive stream info).1 = true ∨
      (parentReceive stream info).2.leaks = info.leaks := by
  unfold parentReceive
  repeat' split
  all_goals first
    | exact Or.inl rfl
    | exact Or.inr rfl

/-- C2 (amended): when the public receive path fails, the failure is
signalled by the returned boolean and the caller's `leaks` vector is never
populated from a partially received message; the scalar header fields
received before the failure, however, have already been written into the
caller's record (as the counterexample shows). -/
theorem C2_no_partial_leaks (stream : List Msg) (info : UnreachableMemoryInfo)
    (h : (parentReceive stream info).1 = false) :
    (parentReceive stream info).2.leaks = info.leaks := by
  rcases parentReceive_cases stream info with htrue | hleaks
  · rw [h] at htrue
    exact Bool.noConfusion htrue
  · exact hleaks

theorem C2_no_partial_leaks_witness :
    (parentReceive [Msg.scalar 7] defaultInfo).2.leaks = defaultInfo.leaks :=
  C2_no_partial_leaks [Msg.scalar 7] defaultInfo rfl

/-! ### Claim C5: the semaphore timeout -/

/-- A child environment in which every step succeeds and there is nothing
to report. -/
def happyChildEnv : ChildEnv :=
  { openSenderOk := true, heapIterate := fun _ => [], threads := [], mappings := [],
    markOracle := fun _ _ => false, mem := fun _ => some 0, limit := 100,
    sendOks := fun _ => true }

/-- A full run in which the bounded wait on the hand-off semaphore times
out but every other step succeeds. -/
def cexParentEnv : ParentEnv :=
  { child := happyChildEnv, captureOk := true, capturedInfoOk := true, mappingsOk := true,
    forkOk := true, semTimedOut := true, openReceiverOk := true }

/-- C5 counterexample: the semaphore wait times out, yet the collection is
reported as a success — the source discards the result of
`continue_parent_sem.Wait(100s)`, so the capture is not abandoned and the
run is not failed. -/
theorem C5_counterexample :
    cexParentEnv.semTimedOut = true ∧
    (GetUnreachableMemory cexParentEnv defaultInfo).1 = true :=
  ⟨rfl, rfl⟩

/-- C5 (amended): the outcome of the bounded semaphore wait has no effect
whatsoever on `GetUnreachableMemory` — the source ignores the `Wait`
return value.  Failure is determined solely by the collection thread's
return value, the receiver open, and the receive chain. -/
theorem C5_timeout_ignored (env : ParentEnv) (b : Bool) (info : UnreachableMemoryInfo) :
    GetUnreachableMemory { env with semTimedOut := b } info =
      GetUnreachableMemory env info := by
  cases env
  rfl

/-! ### Claim C6: field-by-field transport through the pipe -/

/-- C6: the child sends `num_allocations`, `allocation_bytes`, `num_leaks`,
`leak_bytes`, then the leak vector, in that order, and the parent's
receive chain stores them into the corresponding `UnreachableMemoryInfo`
fields in the same order, so a successful collection returns exactly the
values the child computed. -/
theorem C6_field_transport (env : ChildEnv) (info : UnreachableMemoryInfo)
    (leaks : List Leak) (num_leaks leak_bytes : Nat)
    (hsweep : childSweep env = some (leaks, num_leaks, leak_bytes))
    (hexit : (childRun env).1 = some 0) :
    (childRun env).2 =
      [Msg.scalar (childNumAllocations env), Msg.scalar (childAllocationBytes env),
       Msg.scalar num_leaks, Msg.scalar leak_bytes, Msg.vec leaks] ∧
    parentReceive (childRun env).2 info =
      (true, { num_allocations := childNumAllocations env,
               allocation_bytes := childAllocationBytes env,
               num_leaks := num_leaks, leak_bytes := leak_bytes, leaks := leaks }) := by
  cases hos : env.openSenderOk
  · exfalso
    unfold childRun at hexit
    simp [hos] at hexit
  · have hmain : (childRun env).2 =
        [Msg.scalar (childNumAllocations env), Msg.scalar (childAllocationBytes env),
         Msg.scalar num_leaks, Msg.scalar leak_bytes, Msg.vec leaks] := by
      unfold childRun at hexit ⊢
      simp only [hos, Bool.true_eq_false, if_false,
        MemUnreachable.CollectAllocations, MemUnreachable.ClassifyMappings,
        hsweep] at hexit ⊢
      unfold childMsgs at hexit ⊢
      cases hsl : (sendLoop
          [Msg.scalar (childNumAllocations env), Msg.scalar (childAllocationBytes env),
           Msg.scalar num_leaks, Msg.scalar leak_bytes, Msg.vec leaks] env.sendOks).1
      · simp [hsl] at hexit
      · exact sendLoopAux_full env.sendOks _ 0 hsl
    refine ⟨hmain, ?_⟩
    rw [hmain]
    rfl

theorem C6_field_transport_witness :
    parentReceive (childRun happyChildEnv).2 defaultInfo =
      (true, { num_allocations := 0, allocation_bytes := 0, num_leaks := 0,
               leak_bytes := 0, leaks := [] }) :=
  (C6_field_transport happyChildEnv defaultInfo [] 0 0 rfl rfl).2

/-! ### Claim C10: the logging front-end -/

/-- A child environment whose run reports one unreachable allocation of
100 bytes. -/
def leakyChildEnv : ChildEnv :=
  { openSenderOk := true,
    heapIterate := fun _ => [(5000, 100)],
    threads := [],
    mappings := [⟨4096, 8192, true, true, false, "[anon:libc_malloc]"⟩],
    markOracle := fun _ _ => false, mem := fun _ => some 0, limit := 10,
    sendOks := fun _ => true }

/-- A fully successful run around `leakyChildEnv`. -/
def leakyParentEnv : ParentEnv :=
  { child := leakyChildEnv, captureOk := true, capturedInfoOk := true, mappingsOk := true,
    forkOk := true, semTimedOut := false, openReceiverOk := true }

/-- C10: `LogUnreachableMemory` returns failure exactly when the underlying
collection fails; on success it logs one line per leak of the returned
vector and returns true — also when `num_leaks` is positive, as the
concrete leaky run shows: its boolean signals collection success, not the
absence of leaks. -/
theorem C10_log_signals_collection :
    (∀ env : ParentEnv,
      (LogUnreachableMemory env).1 = (GetUnreachableMemory env defaultInfo).1 ∧
      (LogUnreachableMemory env).2 =
        (if (GetUnreachableMemory env defaultInfo).1
         then (GetUnreachableMemory env defaultInfo).2.leaks.map LogUnreachable
         else [])) ∧
    ((GetUnreachableMemory leakyParentEnv defaultInfo).1 = true ∧
     (GetUnreachableMemory leakyParentEnv defaultInfo).2.num_leaks = 1 ∧
     (LogUnreachableMemory leakyParentEnv).1 = true ∧
     (LogUnreachableMemory leakyParentEnv).2 = [(5000, 100)]) := by
  constructor
  · intro env
    unfold LogUnreachableMemory
    rcases h : GetUnreachableMemory env defaultInfo with ⟨ok, info⟩
    cases ok <;> simp [h]
  · exact ⟨rfl, rfl, rfl, rfl⟩

end Memunreachable
